import Mathlib

/-!
Shallow embedding of `src/ecs_fargate_app/frontend/src/components/AnalysisResults.tsx`.

JS strings are represented by `String` (with helpers over `.data` for the
operations whose Lean counterparts are not kernel-reducible), JS `undefined`
by `Option`, and the component's outward behaviour (calls to the analyzer API
client, the chat subsystem, React state setters and `console.error`) by
explicit effect traces.  Asynchronous API calls are embedded by passing the
outcome of the awaited promise (resolution value or thrown error) as an
explicit argument to the handler.
-/

/-- Embedding of the `BestPractice` shape, with exactly the fields this
component reads (`id`, `name`, `relevant`, `applied`, `reasonApplied`,
`reasonNotApplied`, `recommendations`).  The optional `recommendations`
string is modelled as a `String` whose JS truthiness is `!= ""`. -/
structure BestPractice where
  id : String
  name : String
  relevant : Bool
  applied : Bool
  reasonApplied : String
  reasonNotApplied : String
  recommendations : String
deriving DecidableEq

/-- Embedding of one element of the `results` prop (`AnalysisResult`):
a pillar/question group with its nested `bestPractices` array. -/
structure AnalysisResult where
  pillar : String
  question : String
  questionId : String
  bestPractices : List BestPractice
deriving DecidableEq

/-- Embedding of `interface EnhancedBestPractice extends BestPractice`
with the added `pillar`, `question` and `questionId` fields. -/
structure EnhancedBestPractice extends BestPractice where
  pillar : String
  question : String
  questionId : String
deriving DecidableEq

/-- The object literal `{ ...bp, pillar: result.pillar, question:
result.question, questionId: result.questionId }` built inside
`flattenedBestPractices`. -/
def enhance (result : AnalysisResult) (bp : BestPractice) : EnhancedBestPractice :=
  { toBestPractice := bp
    pillar := result.pillar
    question := result.question
    questionId := result.questionId }

/-- Embedding of
`results.flatMap(result => result.bestPractices.map(bp => ({...bp, ...})))`. -/
def flattenedBestPractices (results : List AnalysisResult) : List EnhancedBestPractice :=
  results.flatMap fun result => result.bestPractices.map (enhance result)

/-- Accumulator of the `reduce` inside `getBestPracticeCounts`. -/
structure CountsAcc where
  applied : Nat
  notApplied : Nat
  notRelevant : Nat
deriving DecidableEq

/-- One step of the `reduce` inside `getBestPracticeCounts`. -/
def countsStep (acc : CountsAcc) (practice : EnhancedBestPractice) : CountsAcc :=
  { applied := acc.applied + (if practice.relevant && practice.applied then 1 else 0)
    notApplied := acc.notApplied + (if practice.relevant && !practice.applied then 1 else 0)
    notRelevant := acc.notRelevant + (if !practice.relevant then 1 else 0) }

/-- The object returned by `getBestPracticeCounts`: the three reduce
counters plus `totalReviewed`. -/
structure BestPracticeCounts where
  applied : Nat
  notApplied : Nat
  notRelevant : Nat
  totalReviewed : Nat
deriving DecidableEq

/-- Embedding of `getBestPracticeCounts`: a `reduce` from
`{applied: 0, notApplied: 0, notRelevant: 0}` followed by
`totalReviewed = applied + notApplied + notRelevant`. -/
def getBestPracticeCounts (practices : List EnhancedBestPractice) : BestPracticeCounts :=
  let counts := practices.foldl countsStep ⟨0, 0, 0⟩
  { applied := counts.applied
    notApplied := counts.notApplied
    notRelevant := counts.notRelevant
    totalReviewed := counts.applied + counts.notApplied + counts.notRelevant }

/-- JS truthiness of an optional string value (`undefined`, `''` and absent
values are falsy; every non-empty string is truthy). -/
def jsTruthyStr : Option String → Bool
  | none => false
  | some s => s != ""

/-- Embedding of JS `String.prototype.startsWith` (used for
`uploadedFileType.startsWith('image/')`). -/
def jsStartsWith (s pre : String) : Bool :=
  pre.data.isPrefixOf s.data

/-- Embedding of JS `String.prototype.split(sep)` for a one-character
separator, over the character list of the string: splitting `''` yields
`['']`, and a separator at the end yields a trailing `''` part. -/
def splitCh (sep : Char) : List Char → List (List Char)
  | [] => [[]]
  | c :: cs =>
    match splitCh sep cs with
    | [] => [[]]
    | h :: t => if c = sep then [] :: h :: t else (c :: h) :: t

/-- Embedding of `lensAliasArn?.split('/')?.pop()`: `none` when
`lensAliasArn` is `undefined`, otherwise the last element of the split
(JS `pop` on the freshly split, hence non-empty, array). -/
def jsSplitPop (arn : Option String) : Option String :=
  match arn with
  | none => none
  | some s => ((splitCh '/' s.data).map (fun l => String.mk l)).getLast?

/-- Embedding of
`const lensAlias = lensAliasArn?.split('/')?.pop() || 'wellarchitected'`:
the `||` falls back to the default on `undefined` and on `''`. -/
def lensAliasOf (arn : Option String) : String :=
  match jsSplitPop arn with
  | none => "wellarchitected"
  | some t => if t = "" then "wellarchitected" else t

/-- Modelled from the spec's words for the refinement claim about
`lensAlias`: "the substring of `lensAliasArn` after its last '/' (the whole
string if it contains no '/')", written independently of `split`/`pop` as
the reversed longest '/'-free suffix. -/
def specLastSegment (s : String) : String :=
  String.mk ((s.data.reverse.takeWhile (fun c => c != '/')).reverse)

/-- The ASCII apostrophe character U+0027, used inside JS template
literals of the source. -/
def apos : Char := Char.ofNat 39

/-- The characters ECMAScript `encodeURIComponent` leaves unescaped:
ASCII alphanumerics and `- _ . ! ~ * ' ( )`. -/
def uriUnreserved (c : Char) : Bool :=
  c.isAlphanum || ['-', '_', '.', '!', '~', '*', apos, '(', ')'].contains c

/-- Hexadecimal digits, uppercase as produced by `encodeURIComponent`. -/
def hexDigits : List Char :=
  ['0', '1', '2', '3', '4', '5', '6', '7', '8', '9', 'A', 'B', 'C', 'D', 'E', 'F']

/-- Two-digit uppercase hex rendering of a byte. -/
def byteHex (b : Nat) : String :=
  String.mk [hexDigits.getD (b / 16 % 16) '0', hexDigits.getD (b % 16) '0']

/-- UTF-8 bytes of a character (as `Nat`s), for percent-encoding. -/
def utf8Bytes (c : Char) : List Nat :=
  let n := c.toNat
  if n < 128 then [n]
  else if n < 2048 then [192 + n / 64, 128 + n % 64]
  else if n < 65536 then [224 + n / 4096, 128 + n / 64 % 64, 128 + n % 64]
  else [240 + n / 262144, 128 + n / 4096 % 64, 128 + n / 64 % 64, 128 + n % 64]

/-- Embedding of ECMAScript `encodeURIComponent`: unreserved characters are
kept, every other character is replaced by the percent-encoding of its
UTF-8 bytes. -/
def encodeURIComponent (s : String) : String :=
  String.join (s.data.map fun c =>
    if uriUnreserved c then String.singleton c
    else String.join ((utf8Bytes c).map fun b => "%" ++ byteHex b))

/-- The ASCII double-quote as a string, used in the search-query template
literal of the name column. -/
def dq : String := "\""

/-- The Well-Architected framework page URL built in the name column when
`lensAlias === 'wellarchitected'`. -/
def frameworkUrl (id : String) : String :=
  "https://docs.aws.amazon.com/wellarchitected/latest/framework/" ++ id ++ ".html"

/-- The documentation-search URL built in the name column otherwise:
`.../doc-search.html?searchPath=documentation-guide&searchQuery=` followed by
`encodeURIComponent('"lensName"+"pillar"')`. -/
def docSearchUrl (lensName pillar : String) : String :=
  "https://docs.aws.amazon.com/search/doc-search.html?searchPath=documentation-guide&searchQuery="
    ++ encodeURIComponent (dq ++ lensName ++ dq ++ "+" ++ dq ++ pillar ++ dq)

/-- The `href` of the `Link` in the name column cell. -/
def nameCellHref (lensAlias lensName : String) (item : EnhancedBestPractice) : String :=
  if lensAlias = "wellarchitected" then frameworkUrl item.id
  else docSearchUrl lensName item.pillar

/-- The props/state values `handleGetMoreDetails` reads when it calls
`analyzerApi.getMoreDetails`. -/
structure DetailsCtx where
  selectedItems : List EnhancedBestPractice
  fileId : String
  selectedIaCType : String
  lensAliasArn : Option String
  lensName : String
  outputLanguage : String
deriving DecidableEq

/-- The resolution value of `analyzerApi.getMoreDetails`: an object with
optional `error` and `content` string fields. -/
structure DetailsResult where
  error : Option String
  content : Option String
deriving DecidableEq

/-- A thrown JS value: either an `Error` (carrying `message`) or any
other value. -/
inductive JsError
  | error (message : String)
  | nonError
deriving DecidableEq

/-- `error instanceof Error ? error.message : 'Failed to get detailed analysis'`. -/
def jsErrorMessage : JsError → String
  | .error m => m
  | .nonError => "Failed to get detailed analysis"

/-- Outcome of awaiting the `analyzerApi.getMoreDetails` promise. -/
inductive ApiOutcome
  | resolves (result : DetailsResult)
  | throws (e : JsError)
deriving DecidableEq

/-- Outcome of awaiting the `analyzerApi.cancelIaCGeneration` promise. -/
inductive CancelOutcome
  | resolves
  | rejects (e : JsError)
deriving DecidableEq

/-- The observable actions of the component: React state setters, calls into
the analyzer API client and the chat subsystem, the parent callbacks, and
`console.error`. -/
inductive Effect
  | setIsLoadingDetails (b : Bool)
  | setDetailsError (v : Option String)
  | callGetMoreDetails (items : List EnhancedBestPractice) (fileId : String)
      (selectedIaCType : String) (lensAliasArn : Option String)
      (lensName : String) (outputLanguage : String)
  | setDetailsContent (s : String)
  | setDetailsModalVisible (b : Bool)
  | setError (v : Option String)
  | callCancelIaCGeneration
  | consoleError (msg : String)
  | openChatWithSupportPrompt (prompt : String)
  | callOnGenerateIacDocument
  | callOnDownloadRecommendations
deriving DecidableEq

/-- Embedding of `handleGetMoreDetails` as the effect trace it produces for
a given outcome of the awaited API call: the `try` block sets the loading
flag and clears the details error, makes the call, then branches on
`result.error` and `result.content` truthiness; the `catch` block maps a
thrown value to `setError`; the `finally` block always clears the loading
flag last. -/
def handleGetMoreDetails (ctx : DetailsCtx) (o : ApiOutcome) : List Effect :=
  let pre : List Effect :=
    [Effect.setIsLoadingDetails true,
     Effect.setDetailsError none,
     Effect.callGetMoreDetails ctx.selectedItems ctx.fileId ctx.selectedIaCType
       ctx.lensAliasArn ctx.lensName ctx.outputLanguage]
  let body : List Effect :=
    match o with
    | .throws e => pre ++ [Effect.setError (some (jsErrorMessage e))]
    | .resolves result =>
      pre
        ++ (if jsTruthyStr result.error then [Effect.setDetailsError result.error] else [])
        ++ (if jsTruthyStr result.content then
              [Effect.setDetailsContent (result.content.getD ""),
               Effect.setDetailsModalVisible true]
            else
              [Effect.setError (some "No content received from analysis. Please try again.")])
  body ++ [Effect.setIsLoadingDetails false]

/-- The `disabled` expression of the get-more-details button:
`selectedItems.length === 0 || isLoadingDetails`. -/
def getMoreDetailsDisabled (selectedItems : List EnhancedBestPractice)
    (isLoadingDetails : Bool) : Bool :=
  (selectedItems.length == 0) || isLoadingDetails

/-- A UI click on the get-more-details button: a disabled button fires no
`onClick`, an enabled one runs `handleGetMoreDetails`. -/
def clickGetMoreDetails (ctx : DetailsCtx) (isLoadingDetails : Bool)
    (o : ApiOutcome) : List Effect :=
  if getMoreDetailsDisabled ctx.selectedItems isLoadingDetails then []
  else handleGetMoreDetails ctx o

/-- The `disabled` expression of the generate-IaC-document button:
`isDownloading || isImplementing || !uploadedFileType.startsWith('image/')`. -/
def generateIacDisabled (isDownloading isImplementing : Bool)
    (uploadedFileType : String) : Bool :=
  isDownloading || isImplementing || !(jsStartsWith uploadedFileType "image/")

/-- Embedding of `handleGenerateIacClick`: it only calls
`onGenerateIacDocument()`. -/
def handleGenerateIacClick : List Effect :=
  [Effect.callOnGenerateIacDocument]

/-- A UI click on the generate-IaC-document button: nothing when disabled,
`handleGenerateIacClick` otherwise. -/
def clickGenerateIacDocument (isDownloading isImplementing : Bool)
    (uploadedFileType : String) : List Effect :=
  if generateIacDisabled isDownloading isImplementing uploadedFileType then []
  else handleGenerateIacClick

/-- Embedding of `handleCancelGeneration`: it awaits
`analyzerApi.cancelIaCGeneration()` (no arguments) and, if that rejects,
only logs `console.error('Failed to cancel IaC generation:', error)`;
no state setter is invoked on either path. -/
def handleCancelGeneration : CancelOutcome → List Effect
  | .resolves => [Effect.callCancelIaCGeneration]
  | .rejects _ =>
    [Effect.callCancelIaCGeneration,
     Effect.consoleError "Failed to cancel IaC generation:"]

/-- The conditional rendering `{isImplementing && (<Button ...cancel... />)}`:
the cancel button exists in the output exactly when `isImplementing`. -/
def cancelButtonRendered (isImplementing : Bool) : Bool :=
  isImplementing

/-- The template literal built by `handleAiChatClick`. -/
def aiChatPrompt (item : EnhancedBestPractice) : String :=
  "Can you provide more detailed recommendations and instructions for the best practice "
    ++ String.singleton apos ++ item.name ++ String.singleton apos
    ++ " of the "
    ++ String.singleton apos ++ item.pillar ++ String.singleton apos
    ++ " pillar?"

/-- Embedding of `handleAiChatClick`: it builds the prompt and forwards it
to `openChatWithSupportPrompt`. -/
def handleAiChatClick (item : EnhancedBestPractice) : List Effect :=
  [Effect.openChatWithSupportPrompt (aiChatPrompt item)]

/-- The rendered content of the recommendations column cell: either plain
text or the recommendations together with the inline AI-chat button, whose
`onClick` trace is recorded. -/
inductive RecCell
  | text (s : String)
  | withChatButton (recommendations : String) (onClick : List Effect)
deriving DecidableEq

/-- The JS expression `!item.applied && item.recommendations || 'N/A'` as a
value: the `&&` yields `recommendations` only when `!applied` holds and the
string is truthy, and the `||` turns every falsy result into `'N/A'`. -/
def jsAndOrNA (notApplied : Bool) (recs : String) : String :=
  if notApplied && (recs != "") then recs else "N/A"

/-- Embedding of the recommendations column `cell` renderer. -/
def recommendationsCell (item : EnhancedBestPractice) : RecCell :=
  if !item.relevant then .text "N/A"
  else if !item.applied && (item.recommendations != "") then
    .withChatButton item.recommendations (handleAiChatClick item)
  else .text (jsAndOrNA (!item.applied) item.recommendations)

/-- A sample best practice used to evaluate the theorems on concrete data. -/
def demoBP (nm : String) (rel app : Bool) (recs : String) : BestPractice :=
  { id := "sec01-bp01", name := nm, relevant := rel, applied := app
    reasonApplied := "ra", reasonNotApplied := "rna", recommendations := recs }

/-- A sample nested results array with two groups. -/
def demoResults : List AnalysisResult :=
  [{ pillar := "Security", question := "Q1", questionId := "sec01"
     bestPractices := [demoBP "Use MFA" true true "", demoBP "Rotate keys" true false "Rotate them"] },
   { pillar := "Reliability", question := "Q2", questionId := "rel01"
     bestPractices := [demoBP "Backups" false false ""] }]

/-- A sample enhanced best practice. -/
def demoItem : EnhancedBestPractice :=
  { toBestPractice := demoBP "Rotate keys" true false "Rotate them"
    pillar := "Security", question := "Q1", questionId := "sec01" }

/-- A sample context for the details request. -/
def demoCtx : DetailsCtx :=
  { selectedItems := [demoItem], fileId := "file-1", selectedIaCType := "CloudFormation"
    lensAliasArn := some "arn:aws:wellarchitected::aws:lens/serverless"
    lensName := "Serverless Lens", outputLanguage := "en" }

/-- Character-list view of string concatenation (definitional). -/
theorem data_append (a b : String) : (a ++ b).data = a.data ++ b.data := rfl

/-- Unfolding of the flattening over a cons cell. -/
theorem flattenedBestPractices_cons (r : AnalysisResult) (rs : List AnalysisResult) :
    flattenedBestPractices (r :: rs)
      = r.bestPractices.map (enhance r) ++ flattenedBestPractices rs := rfl

/-- The flattening of an empty results array is empty. -/
theorem flattenedBestPractices_nil : flattenedBestPractices [] = [] := rfl

/-- The three reduce counters after folding from an arbitrary accumulator. -/
theorem foldl_countsStep (l : List EnhancedBestPractice) (acc : CountsAcc) :
    (l.foldl countsStep acc).applied
        = acc.applied + l.countP (fun p => p.relevant && p.applied)
  ∧ (l.foldl countsStep acc).notApplied
        = acc.notApplied + l.countP (fun p => p.relevant && !p.applied)
  ∧ (l.foldl countsStep acc).notRelevant
        = acc.notRelevant + l.countP (fun p => !p.relevant) := by
  induction l generalizing acc with
  | nil => simp
  | cons p t ih =>
    obtain ⟨h1, h2, h3⟩ := ih (countsStep acc p)
    simp only [List.foldl_cons, h1, h2, h3, List.countP_cons]
    simp only [countsStep]
    refine ⟨?_, ?_, ?_⟩ <;>
      by_cases hr : p.relevant <;> by_cases ha : p.applied <;>
      simp [hr, ha] <;> omega

/-- The three buckets are mutually exclusive and exhaustive. -/
theorem countP_partition (l : List EnhancedBestPractice) :
    l.countP (fun p => p.relevant && p.applied)
      + l.countP (fun p => p.relevant && !p.applied)
      + l.countP (fun p => !p.relevant) = l.length := by
  induction l with
  | nil => rfl
  | cons p t ih =>
    simp only [List.countP_cons, List.length_cons]
    by_cases hr : p.relevant <;> by_cases ha : p.applied <;> simp [hr, ha] <;> omega

/-- Claim C5: `getBestPracticeCounts` partitions its input exactly —
`applied` counts items with `relevant && applied`, `notApplied` counts items
with `relevant && !applied`, `notRelevant` counts items with `!relevant`,
and `totalReviewed` is their sum and equals the length of the input list. -/
theorem c5_getBestPracticeCounts_partition (practices : List EnhancedBestPractice) :
    (getBestPracticeCounts practices).applied
        = practices.countP (fun p => p.relevant && p.applied)
  ∧ (getBestPracticeCounts practices).notApplied
        = practices.countP (fun p => p.relevant && !p.applied)
  ∧ (getBestPracticeCounts practices).notRelevant
        = practices.countP (fun p => !p.relevant)
  ∧ (getBestPracticeCounts practices).totalReviewed
        = (getBestPracticeCounts practices).applied
          + (getBestPracticeCounts practices).notApplied
          + (getBestPracticeCounts practices).notRelevant
  ∧ (getBestPracticeCounts practices).totalReviewed = practices.length := by
  obtain ⟨h1, h2, h3⟩ := foldl_countsStep practices ⟨0, 0, 0⟩
  have e1 : (practices.foldl countsStep ⟨0, 0, 0⟩).applied
      = practices.countP (fun p => p.relevant && p.applied) := by simpa using h1
  have e2 : (practices.foldl countsStep ⟨0, 0, 0⟩).notApplied
      = practices.countP (fun p => p.relevant && !p.applied) := by simpa using h2
  have e3 : (practices.foldl countsStep ⟨0, 0, 0⟩).notRelevant
      = practices.countP (fun p => !p.relevant) := by simpa using h3
  refine ⟨e1, e2, e3, rfl, ?_⟩
  show (practices.foldl countsStep ⟨0, 0, 0⟩).applied
      + (practices.foldl countsStep ⟨0, 0, 0⟩).notApplied
      + (practices.foldl countsStep ⟨0, 0, 0⟩).notRelevant = practices.length
  rw [e1, e2, e3]
  exact countP_partition practices

/-- Projecting the spread part back out of the enhanced rows of one result
recovers that result's `bestPractices` array unchanged. -/
theorem map_toBestPractice_enhance (r : AnalysisResult) (l : List BestPractice) :
    (l.map (enhance r)).map (fun e => e.toBestPractice) = l := by
  induction l with
  | nil => rfl
  | cons b t ih => simp [List.map_cons, ih, enhance]

/-- Claim C9: the component is read-only with respect to `results` — the
embedding is a pure function, and projecting the `BestPractice` part out of
every flattened row recovers exactly the original nested `bestPractices`
elements, in order and structurally unchanged. -/
theorem c9_flatten_readonly (results : List AnalysisResult) :
    (flattenedBestPractices results).map (fun e => e.toBestPractice)
      = (results.map (fun r => r.bestPractices)).flatten := by
  induction results with
  | nil => rfl
  | cons r rs ih =>
    simp only [flattenedBestPractices_cons, List.map_append, List.map_cons,
      List.flatten_cons, map_toBestPractice_enhance, ih]

/-- Claim C1: the flattened list has exactly one row per best practice —
its length is the sum of the lengths of all `bestPractices` arrays, and the
row at offset (number of best practices of results before `i`) + `j` is the
`j`-th best practice of the `i`-th result extended with that result's
`pillar`, `question` and `questionId` (so rows appear in result order, then
best-practice order). -/
theorem c1_flattenedBestPractices_rows (results : List AnalysisResult) :
    (flattenedBestPractices results).length
        = (results.map (fun r => r.bestPractices.length)).sum
  ∧ ∀ i j, ∀ hi : i < results.length, ∀ hj : j < results[i].bestPractices.length,
      (flattenedBestPractices results)[((results.take i).map (fun r => r.bestPractices.length)).sum + j]?
        = some (enhance results[i] (results[i].bestPractices[j])) := by
  induction results with
  | nil =>
    refine ⟨rfl, ?_⟩
    intro i j hi hj
    simp at hi
  | cons r rs ih =>
    refine ⟨?_, ?_⟩
    · simp only [flattenedBestPractices_cons, List.length_append, List.length_map,
        List.map_cons, List.sum_cons, ih.1]
    · intro i j hi hj
      cases i with
      | zero =>
        simp only [List.take_zero, List.map_nil, List.sum_nil, Nat.zero_add,
          flattenedBestPractices_cons, List.getElem_cons_zero] at hj ⊢
        rw [List.getElem?_append_left (by simpa using hj), List.getElem?_map,
          List.getElem?_eq_getElem hj]
        rfl
      | succ k =>
        have hk : k < rs.length := by simpa using hi
        have hjk : j < rs[k].bestPractices.length := by
          simpa using hj
        simp only [List.take_succ_cons, List.map_cons, List.sum_cons,
          flattenedBestPractices_cons, List.getElem_cons_succ]
        rw [List.getElem?_append_right (by simp; omega)]
        have harith : r.bestPractices.length + (((rs.take k).map (fun r => r.bestPractices.length)).sum + j)
            - (r.bestPractices.map (enhance r)).length
            = ((rs.take k).map (fun r => r.bestPractices.length)).sum + j := by
          simp
        rw [show r.bestPractices.length + ((rs.take k).map (fun r => r.bestPractices.length)).sum + j
            = r.bestPractices.length + (((rs.take k).map (fun r => r.bestPractices.length)).sum + j) from by omega,
          harith]
        exact ih.2 k j hk hjk

/-- Witness for C1: in the sample data, the row at offset 1 (the second
best practice of the first result) is that best practice extended with the
first result's pillar, question and question id. -/
theorem c1_flattenedBestPractices_rows_witness :
    (flattenedBestPractices demoResults)[1]? = some demoItem := by
  have h := (c1_flattenedBestPractices_rows demoResults).2 0 1 (by decide) (by decide)
  simpa using h

/-- Claim C2: on a resolved API call, `handleGetMoreDetails` calls
`getMoreDetails` with exactly the selected items, `fileId`,
`selectedIaCType`, `lensAliasArn`, `lensName` and `outputLanguage`; if the
result carries a non-empty `content`, that content is stored and the
details modal is made visible; otherwise `setError` receives the fixed
message and the modal is not opened. -/
theorem c2_handleGetMoreDetails_resolved (ctx : DetailsCtx) (r : DetailsResult) :
    Effect.callGetMoreDetails ctx.selectedItems ctx.fileId ctx.selectedIaCType
        ctx.lensAliasArn ctx.lensName ctx.outputLanguage
      ∈ handleGetMoreDetails ctx (.resolves r)
  ∧ (∀ items f t a ln ol,
      Effect.callGetMoreDetails items f t a ln ol ∈ handleGetMoreDetails ctx (.resolves r) →
      items = ctx.selectedItems ∧ f = ctx.fileId ∧ t = ctx.selectedIaCType
        ∧ a = ctx.lensAliasArn ∧ ln = ctx.lensName ∧ ol = ctx.outputLanguage)
  ∧ (∀ s, r.content = some s → s ≠ "" →
      Effect.setDetailsContent s ∈ handleGetMoreDetails ctx (.resolves r)
      ∧ Effect.setDetailsModalVisible true ∈ handleGetMoreDetails ctx (.resolves r)
      ∧ Effect.setError (some "No content received from analysis. Please try again.")
          ∉ handleGetMoreDetails ctx (.resolves r))
  ∧ (jsTruthyStr r.content = false →
      Effect.setError (some "No content received from analysis. Please try again.")
          ∈ handleGetMoreDetails ctx (.resolves r)
      ∧ ∀ b, Effect.setDetailsModalVisible b ∉ handleGetMoreDetails ctx (.resolves r)) := by
  refine ⟨?_, ?_, ?_, ?_⟩
  · by_cases he : jsTruthyStr r.error <;> by_cases hc : jsTruthyStr r.content <;>
      simp [handleGetMoreDetails, he, hc]
  · intro items f t a ln ol h
    by_cases he : jsTruthyStr r.error <;> by_cases hc : jsTruthyStr r.content <;>
      simp [handleGetMoreDetails, he, hc] at h <;> tauto
  · intro s hs hne
    have hcs : jsTruthyStr (some s) = true := by simp [jsTruthyStr, hne]
    by_cases he : jsTruthyStr r.error <;>
      simp [handleGetMoreDetails, he, hs, hcs]
  · intro hcf
    constructor
    · by_cases he : jsTruthyStr r.error <;> simp [handleGetMoreDetails, he, hcf]
    · intro b
      by_cases he : jsTruthyStr r.error <;> simp [handleGetMoreDetails, he, hcf]

/-- Witness for C2: on the sample context with a result that resolves with
content "hello", the content is stored, the modal is opened, and no error
message is emitted. -/
theorem c2_handleGetMoreDetails_resolved_witness :
    Effect.setDetailsContent "hello" ∈ handleGetMoreDetails demoCtx (.resolves ⟨none, some "hello"⟩)
  ∧ Effect.setDetailsModalVisible true ∈ handleGetMoreDetails demoCtx (.resolves ⟨none, some "hello"⟩)
  ∧ Effect.setError (some "No content received from analysis. Please try again.")
      ∉ handleGetMoreDetails demoCtx (.resolves ⟨none, some "hello"⟩) :=
  (c2_handleGetMoreDetails_resolved demoCtx ⟨none, some "hello"⟩).2.2.1 "hello" rfl (by decide)

/-- Claim C3: for every outcome of the API call, `handleGetMoreDetails`
sets the loading flag to true first and clears it last (the `finally`
block), and a thrown value never escapes: the `catch` block maps it to
`setError` with the error's message, or with the fixed fallback when the
thrown value is not an `Error`. -/
theorem c3_handleGetMoreDetails_lifecycle (ctx : DetailsCtx) (o : ApiOutcome) :
    (handleGetMoreDetails ctx o).head? = some (Effect.setIsLoadingDetails true)
  ∧ (handleGetMoreDetails ctx o).getLast? = some (Effect.setIsLoadingDetails false)
  ∧ (∀ e, o = .throws e →
      Effect.setError (some (jsErrorMessage e)) ∈ handleGetMoreDetails ctx o) := by
  refine ⟨?_, ?_, ?_⟩
  · cases o with
    | throws e => simp [handleGetMoreDetails]
    | resolves r =>
      by_cases he : jsTruthyStr r.error <;> by_cases hc : jsTruthyStr r.content <;>
        simp [handleGetMoreDetails, he, hc]
  · cases o with
    | throws e => exact List.getLast?_concat ..
    | resolves r => exact List.getLast?_concat ..
  · intro e he
    subst he
    simp [handleGetMoreDetails]

/-- Witness for C3: on the sample context with a thrown non-`Error` value,
the fallback message is passed to `setError`. -/
theorem c3_handleGetMoreDetails_lifecycle_witness :
    Effect.setError (some (jsErrorMessage .nonError))
      ∈ handleGetMoreDetails demoCtx (.throws .nonError) :=
  (c3_handleGetMoreDetails_lifecycle demoCtx (.throws .nonError)).2.2 .nonError rfl

/-- Claim C4: the get-more-details button is disabled when no rows are
selected or a details request is loading, so a click that reaches
`getMoreDetails` implies a non-empty selection and no request in flight,
and the call carries exactly the current selection. -/
theorem c4_getMoreDetails_guard (ctx : DetailsCtx) (load : Bool) (o : ApiOutcome)
    (items : List EnhancedBestPractice) (f t : String) (a : Option String) (ln ol : String) :
    ((ctx.selectedItems.length = 0 ∨ load = true) →
        getMoreDetailsDisabled ctx.selectedItems load = true)
  ∧ (Effect.callGetMoreDetails items f t a ln ol ∈ clickGetMoreDetails ctx load o →
      items ≠ [] ∧ load = false ∧ items = ctx.selectedItems) := by
  constructor
  · intro h
    rcases h with h | h <;> simp [getMoreDetailsDisabled, h]
  intro h
  by_cases hd : getMoreDetailsDisabled ctx.selectedItems load
  · simp [clickGetMoreDetails, hd] at h
  · have hdd := hd
    simp [getMoreDetailsDisabled] at hdd
    obtain ⟨hlen, hload⟩ := hdd
    have hne : ctx.selectedItems ≠ [] := by
      intro e
      rw [e] at hlen
      simp at hlen
    simp only [clickGetMoreDetails, hd, if_false] at h
    have hitems : items = ctx.selectedItems := by
      cases o with
      | throws e => simp [handleGetMoreDetails] at h; tauto
      | resolves r =>
        by_cases he : jsTruthyStr r.error <;> by_cases hc : jsTruthyStr r.content <;>
          simp [handleGetMoreDetails, he, hc] at h <;> tauto
    subst hitems
    exact ⟨hne, hload, rfl⟩

/-- Witness for C4: a loading flag disables the button on the sample
context, and a click with one selected row and no request in flight yields
a call satisfying the guard conclusions. -/
theorem c4_getMoreDetails_guard_witness :
    getMoreDetailsDisabled demoCtx.selectedItems true = true
  ∧ (demoCtx.selectedItems ≠ [] ∧ false = false
      ∧ demoCtx.selectedItems = demoCtx.selectedItems) :=
  ⟨(c4_getMoreDetails_guard demoCtx true (.resolves ⟨none, some "hello"⟩)
      demoCtx.selectedItems demoCtx.fileId demoCtx.selectedIaCType
      demoCtx.lensAliasArn demoCtx.lensName demoCtx.outputLanguage).1 (Or.inr rfl),
   (c4_getMoreDetails_guard demoCtx false (.resolves ⟨none, some "hello"⟩)
      demoCtx.selectedItems demoCtx.fileId demoCtx.selectedIaCType
      demoCtx.lensAliasArn demoCtx.lensName demoCtx.outputLanguage).2 (by decide)⟩

/-- Claim C6: the generate-IaC-document button is disabled whenever the
uploaded file is not an image or a download or generation is in progress,
so a click that reaches `onGenerateIacDocument` implies an `image/` upload
and neither flag set. -/
theorem c6_generateIac_guard (d i : Bool) (ft : String) :
    ((d = true ∨ i = true ∨ jsStartsWith ft "image/" = false) →
        generateIacDisabled d i ft = true)
  ∧ (Effect.callOnGenerateIacDocument ∈ clickGenerateIacDocument d i ft →
      jsStartsWith ft "image/" = true ∧ d = false ∧ i = false) := by
  constructor
  · intro h
    rcases h with h | h | h <;> simp [generateIacDisabled, h]
  · intro h
    by_cases hd : generateIacDisabled d i ft
    · simp [clickGenerateIacDocument, hd] at h
    · simp [generateIacDisabled] at hd
      tauto

/-- Witness for C6: a white-listed click with an image upload and idle
flags reaches the callback, and a set `isDownloading` flag disables the
button. -/
theorem c6_generateIac_guard_witness :
    generateIacDisabled true false "application/json" = true
  ∧ (jsStartsWith "image/png" "image/" = true ∧ false = false ∧ false = false) :=
  ⟨(c6_generateIac_guard true false "application/json").1 (Or.inl rfl),
   (c6_generateIac_guard false false "image/png").2 (by decide)⟩

/-- Claim C7: cancelling forwards the intent by calling
`cancelIaCGeneration` with no arguments; a rejection is only logged to the
console and changes no component state (the trace holds nothing but the
call and possibly the log); the cancel button is rendered exactly while
`isImplementing` is true. -/
theorem c7_cancelGeneration (o : CancelOutcome) :
    Effect.callCancelIaCGeneration ∈ handleCancelGeneration o
  ∧ (∀ e, handleCancelGeneration (.rejects e)
        = [Effect.callCancelIaCGeneration,
           Effect.consoleError "Failed to cancel IaC generation:"])
  ∧ (∀ eff, eff ∈ handleCancelGeneration o →
        eff = Effect.callCancelIaCGeneration ∨ ∃ m, eff = Effect.consoleError m)
  ∧ (∀ b, cancelButtonRendered b = b) := by
  refine ⟨?_, fun e => rfl, ?_, fun b => rfl⟩
  · cases o <;> simp [handleCancelGeneration]
  · intro eff h
    cases o <;> simp [handleCancelGeneration] at h <;>
      first
      | exact Or.inl h
      | (rcases h with h | h
         · exact Or.inl h
         · exact Or.inr ⟨_, h⟩)

/-- Witness for C7: evaluating the trace characterisation on a concrete
rejected cancellation. -/
theorem c7_cancelGeneration_witness :
    Effect.consoleError "Failed to cancel IaC generation:" = Effect.callCancelIaCGeneration
      ∨ ∃ m, Effect.consoleError "Failed to cancel IaC generation:" = Effect.consoleError m :=
  (c7_cancelGeneration (.rejects .nonError)).2.2.1
    (Effect.consoleError "Failed to cancel IaC generation:") (by decide)

/-- Claim C8: clicking the AI-chat icon forwards exactly the prompt
"Can you provide more detailed recommendations and instructions for the
best practice '<name>' of the '<pillar>' pillar?" to
`openChatWithSupportPrompt`, and the icon is rendered exactly for rows that
are relevant, not applied, and have non-empty recommendations. -/
theorem c8_aiChat (item : EnhancedBestPractice) :
    handleAiChatClick item = [Effect.openChatWithSupportPrompt (aiChatPrompt item)]
  ∧ (aiChatPrompt item).data
      = "Can you provide more detailed recommendations and instructions for the best practice ".data
        ++ apos :: (item.name.data ++ apos :: (" of the ".data
        ++ apos :: (item.pillar.data ++ apos :: " pillar?".data)))
  ∧ ((∃ r, recommendationsCell item = RecCell.withChatButton r (handleAiChatClick item))
        ↔ (item.relevant = true ∧ item.applied = false ∧ item.recommendations ≠ ""))
  ∧ (∀ r oc, recommendationsCell item = RecCell.withChatButton r oc →
        r = item.recommendations ∧ oc = handleAiChatClick item) := by
  refine ⟨rfl, ?_, ?_, ?_⟩
  · simp [aiChatPrompt, data_append, String.singleton, List.append_assoc]
  · by_cases hr : item.relevant <;> by_cases ha : item.applied <;>
      by_cases hrec : item.recommendations = "" <;>
      simp [recommendationsCell, hr, ha, hrec, jsAndOrNA]
  · intro r oc h
    by_cases hr : item.relevant <;> by_cases ha : item.applied <;>
      by_cases hrec : item.recommendations = "" <;>
      simp [recommendationsCell, hr, ha, hrec, jsAndOrNA] at h <;> tauto

/-- Witness for C8: the sample relevant, not-applied row with non-empty
recommendations renders the chat button with the click trace. -/
theorem c8_aiChat_witness :
    ∃ r, recommendationsCell demoItem = RecCell.withChatButton r (handleAiChatClick demoItem) :=
  (c8_aiChat demoItem).2.2.1.mpr (by decide)

/-- JS `split` never returns an empty array. -/
theorem splitCh_ne_nil (sep : Char) (l : List Char) : splitCh sep l ≠ [] := by
  cases l with
  | nil => simp [splitCh]
  | cons c cs =>
    simp only [splitCh]
    cases hsp : splitCh sep cs with
    | nil => simp
    | cons h t => by_cases hc : c = sep <;> simp [hc]

/-- Splitting a string that does not contain the separator yields the
singleton array holding the whole string. -/
theorem splitCh_noSep (sep : Char) (l : List Char) (h : sep ∉ l) : splitCh sep l = [l] := by
  induction l with
  | nil => rfl
  | cons c cs ih =>
    have hc : ¬ c = sep := by
      intro e
      exact h (by rw [← e]; exact List.mem_cons_self c cs)
    have hcs : sep ∉ cs := fun m => h (List.mem_cons_of_mem _ m)
    simp only [splitCh, ih hcs]
    simp [hc]

/-- The number of parts is the number of separators plus one. -/
theorem splitCh_length (sep : Char) (l : List Char) :
    (splitCh sep l).length = l.count sep + 1 := by
  induction l with
  | nil => simp [splitCh]
  | cons c cs ih =>
    simp only [splitCh]
    cases hsp : splitCh sep cs with
    | nil => exact absurd hsp (splitCh_ne_nil sep cs)
    | cons h t =>
      rw [hsp] at ih
      by_cases hc : c = sep <;> simp [hc, List.count_cons] at ih ⊢ <;> omega

/-- `takeWhile` walks through a prefix all of whose elements satisfy the
predicate. -/
theorem takeWhile_append_all (p : Char → Bool) (l m : List Char)
    (h : ∀ x ∈ l, p x = true) :
    (l ++ m).takeWhile p = l ++ m.takeWhile p := by
  induction l with
  | nil => rfl
  | cons a t ih =>
    have ha := h a (List.mem_cons_self a t)
    simp [List.takeWhile_cons, ha, ih (fun x hx => h x (List.mem_cons_of_mem _ hx))]

/-- `takeWhile` stops inside a prefix holding a failing element. -/
theorem takeWhile_append_stop (p : Char → Bool) (l m : List Char) (x : Char)
    (hx : x ∈ l) (hpx : p x = false) :
    (l ++ m).takeWhile p = l.takeWhile p := by
  induction l with
  | nil => cases hx
  | cons a t ih =>
    by_cases ha : p a
    · have hxt : x ∈ t := by
        rcases List.mem_cons.mp hx with h1 | h1
        · rw [h1] at hpx
          rw [hpx] at ha
          cases ha
        · exact h1
      simp [List.takeWhile_cons, ha, ih hxt]
    · simp [List.takeWhile_cons, ha]

/-- The last part returned by JS `split` is the reversed longest
separator-free suffix: exactly the substring after the last separator. -/
theorem splitCh_getLast (sep : Char) (l : List Char) :
    (splitCh sep l).getLast? = some ((l.reverse.takeWhile (fun c => c != sep)).reverse) := by
  induction l with
  | nil => rfl
  | cons c cs ih =>
    simp only [splitCh]
    cases hsp : splitCh sep cs with
    | nil => exact absurd hsp (splitCh_ne_nil sep cs)
    | cons h t =>
      rw [hsp] at ih
      by_cases hmem : sep ∈ cs
      · have hR : ((c :: cs).reverse.takeWhile (fun c => c != sep))
            = (cs.reverse.takeWhile (fun c => c != sep)) := by
          rw [List.reverse_cons]
          exact takeWhile_append_stop _ _ _ sep (List.mem_reverse.mpr hmem) (by simp)
        by_cases hc : c = sep
        · simp only [if_pos hc]
          rw [List.getLast?_cons_cons, hR] at *
          exact ih
        · have hlen := splitCh_length sep cs
          rw [hsp] at hlen
          have hcnt : 0 < cs.count sep := List.count_pos_iff.mpr hmem
          have ht : t ≠ [] := by
            intro e
            rw [e] at hlen
            simp at hlen
            omega
          simp only [if_neg hc]
          cases t with
          | nil => exact absurd rfl ht
          | cons t0 ts =>
            rw [List.getLast?_cons_cons] at ih ⊢
            rw [hR]
            exact ih
      · have hone : splitCh sep cs = [cs] := splitCh_noSep sep cs hmem
        rw [hone] at hsp
        injection hsp with h1 h2
        subst h1
        subst h2
        have hall : ∀ x ∈ cs.reverse, (fun c => c != sep) x = true := by
          intro x hx
          simp only [bne_iff_ne, ne_eq, decide_eq_true_eq]
          intro e
          rw [e] at hx
          exact hmem (List.mem_reverse.mp hx)
        have hR : ((c :: cs).reverse.takeWhile (fun c => c != sep))
            = cs.reverse ++ ([c].takeWhile (fun c => c != sep)) := by
          rw [List.reverse_cons]
          exact takeWhile_append_all _ _ _ hall
        by_cases hc : c = sep
        · simp only [if_pos hc]
          rw [List.getLast?_cons_cons, hR]
          simp [hc]
        · simp only [if_neg hc]
          rw [hR]
          simp [hc]

/-- `lensAliasArn?.split('/')?.pop()` on a defined ARN returns exactly the
spec's last segment. -/
theorem jsSplitPop_some (s : String) : jsSplitPop (some s) = some (specLastSegment s) := by
  simp only [jsSplitPop, specLastSegment]
  rw [List.getLast?_map, splitCh_getLast]
  rfl

/-- Character 28 of the framework URL is always `w`. -/
theorem frameworkUrl_get28 (id : String) : (frameworkUrl id).data[28]? = some 'w' := by
  rw [show (frameworkUrl id).data
      = "https://docs.aws.amazon.com/wellarchitected/latest/framework/".data
        ++ (id.data ++ ".html".data) from by
    simp [frameworkUrl, data_append, List.append_assoc]]
  rw [List.getElem?_append_left (by decide)]
  decide

/-- Character 28 of the documentation-search URL is always `s`. -/
theorem docSearchUrl_get28 (lensName pillar : String) :
    (docSearchUrl lensName pillar).data[28]? = some 's' := by
  rw [show (docSearchUrl lensName pillar).data
      = "https://docs.aws.amazon.com/search/doc-search.html?searchPath=documentation-guide&searchQuery=".data
        ++ (encodeURIComponent (dq ++ lensName ++ dq ++ "+" ++ dq ++ pillar ++ dq)).data from rfl]
  rw [List.getElem?_append_left (by decide)]
  decide

/-- The two name-column link targets are never the same string. -/
theorem frameworkUrl_ne_docSearchUrl (id lensName pillar : String) :
    frameworkUrl id ≠ docSearchUrl lensName pillar := by
  intro h
  have h28 := congrArg (fun s => s.data[28]?) h
  simp only [frameworkUrl_get28, docSearchUrl_get28] at h28
  cases h28

/-- Claim C10 (amended): `lensAlias` is `'wellarchitected'` when
`lensAliasArn` is undefined or the substring after its last `'/'` is empty,
and otherwise equals that substring (which may itself be
`'wellarchitected'`); the name-column link targets the framework page built
from `item.id` iff `lensAlias = 'wellarchitected'`, and otherwise the
documentation-search URL built from `lensName` and the item's pillar. -/
theorem c10_lensAlias_characterisation (arn : Option String) :
    (arn = none → lensAliasOf arn = "wellarchitected")
  ∧ (∀ s, arn = some s → specLastSegment s = "" → lensAliasOf arn = "wellarchitected")
  ∧ (∀ s, arn = some s → specLastSegment s ≠ "" → lensAliasOf arn = specLastSegment s)
  ∧ (∀ lensName item,
      (nameCellHref (lensAliasOf arn) lensName item = frameworkUrl item.id
          ↔ lensAliasOf arn = "wellarchitected")
      ∧ (lensAliasOf arn ≠ "wellarchitected" →
          nameCellHref (lensAliasOf arn) lensName item = docSearchUrl lensName item.pillar)) := by
  refine ⟨?_, ?_, ?_, ?_⟩
  · intro h
    subst h
    rfl
  · intro s hs hseg
    subst hs
    simp [lensAliasOf, jsSplitPop_some, hseg]
  · intro s hs hseg
    subst hs
    simp [lensAliasOf, jsSplitPop_some, hseg]
  · intro lensName item
    constructor
    · constructor
      · intro hEq
        by_contra hne
        rw [show nameCellHref (lensAliasOf arn) lensName item
            = docSearchUrl lensName item.pillar from by simp [nameCellHref, hne]] at hEq
        exact frameworkUrl_ne_docSearchUrl item.id lensName item.pillar hEq.symm
      · intro hwa
        simp [nameCellHref, hwa]
    · intro hne
      simp [nameCellHref, hne]

/-- Witness for C10 (amended): on a concrete ARN whose last segment is
non-empty, `lensAlias` equals that segment. -/
theorem c10_lensAlias_characterisation_witness :
    lensAliasOf (some "arn:aws:wellarchitected::aws:lens/serverless")
      = specLastSegment "arn:aws:wellarchitected::aws:lens/serverless" :=
  (c10_lensAlias_characterisation (some "arn:aws:wellarchitected::aws:lens/serverless")).2.2.1
    "arn:aws:wellarchitected::aws:lens/serverless" rfl (by decide)

/-- Counterexample for C10 as stated: for `lensAliasArn = 'wellarchitected'`
the alias equals the default value `'wellarchitected'` although the ARN is
defined and its last segment is non-empty, refuting the claim's
"equals the default exactly when undefined or empty segment". -/
theorem c10_lensAlias_counterexample :
    lensAliasOf (some "wellarchitected") = "wellarchitected"
  ∧ (some "wellarchitected" : Option String) ≠ none
  ∧ specLastSegment "wellarchitected" ≠ "" := by
  refine ⟨by decide, by decide, by decide⟩
